/-
Verification of the statsd metrics exporter (getsentry/hackweek-metrics-exporter-statsd).

Shallow embedding of the repository's core, translated from the source:
  - `src/lib.rs`    — `StatsdRecorder`: register/update operations, `export`, `send`, `run`
  - `src/statsd.rs` — `StatsdExporter`: duplicates the same `export`/`send`/`run` logic
  - `src/recorder.rs` — `PlainRecorder`: same register/update operations over the registry
  - `src/html/mod.rs` — `HtmlExporter::json_snapshot`

The registry and handle types (`metrics_util::{Registry, Handle, CompositeKey,
MetricKind}`) are an external dependency of the repository, not part of `src/`;
they are modelled from the spec (§3, §4.1, §4.2): identifier interning by
composite key, u64 counters with wrapping add, last-write-wins gauges, and
histograms accumulating samples.  Identifiers are modelled as indices into the
registry's entry list, in registration order.

Floating point: gauge values are `f64` in the source, displayed via Rust's
`fmt::Display`, which prints the shortest decimal string that round-trips.
Modelled from the spec ("shortest round-trippable decimal form"): a gauge value
is represented by its shortest-decimal form `m * 10^(-e)` (type `F64` below),
which is faithful for the store/read/display pipeline the code performs (gauges
are only ever overwritten, never used arithmetically).

Byte buffers (`BytesMut` of UTF-8 text in the source) are modelled as `String`
for the encoder and as `List Char` for the send path; every metric name in the
claims is ASCII, so char count equals byte count.
-/
import Mathlib

set_option linter.unusedVariables false

/-- Metric kinds, from `metrics_util::MetricKind`. -/
inductive MetricKind
  | counter
  | gauge
  | histogram
deriving DecidableEq, Repr

/-- Modelled from the spec: a gauge's f64 value, represented by its shortest
round-trippable decimal form: the value `m * 10 ^ (-e)`.  Missing from `src/`:
the `f64` storage lives in `metrics_util::Handle` and the rendering in Rust's
`fmt::Display` for `f64`. -/
structure F64 where
  m : Int
  e : Nat
deriving DecidableEq, Repr

/-- Strip trailing decimal zeros: `(330, 2)` (i.e. 3.30) becomes `(33, 1)` (3.3). -/
def stripTrailing : Int → Nat → Int × Nat
  | m, 0 => (m, 0)
  | m, e + 1 => if m % 10 = 0 then stripTrailing (m / 10) e else (m, e + 1)

/-- Render the shortest round-trippable decimal form of a gauge value, as
Rust's `fmt::Display` for `f64` does on the values in this development:
`42` (not `42.0`), `3.3`, `0`. -/
def F64.render (d : F64) : String :=
  let p := stripTrailing d.m d.e
  if p.2 = 0 then toString p.1
  else
    let sign := if p.1 < 0 then "-" else ""
    let a := p.1.natAbs
    let ip := a / 10 ^ p.2
    let fp := a % 10 ^ p.2
    let fs := toString fp
    let pad := String.mk (List.replicate (p.2 - fs.length) '0')
    sign ++ toString ip ++ "." ++ pad ++ fs

/-- Composite key, from `metrics_util::CompositeKey`: metric kind plus name. -/
structure CompositeKey where
  kind : MetricKind
  name : String
deriving DecidableEq, Repr

/-- Modelled from the spec: `metrics_util::Handle`, one mutable value per
metric, polymorphic over kind. -/
inductive Handle
  | counter (v : Nat)
  | gauge (v : F64)
  | histogram (samples : List Nat)
deriving DecidableEq, Repr

/-- Counter reading (`Handle::read_counter`).  A kind-mismatched read cannot
occur through the recorder or encoder, which match kinds first; modelled as 0. -/
def Handle.read_counter : Handle → Nat
  | .counter v => v
  | _ => 0

/-- Gauge reading (`Handle::read_gauge`); kind mismatch modelled as 0. -/
def Handle.read_gauge : Handle → F64
  | .gauge v => v
  | _ => ⟨0, 0⟩

/-- Histogram reading (`Handle::read_histogram`); kind mismatch modelled as empty. -/
def Handle.read_histogram : Handle → List Nat
  | .histogram s => s
  | _ => []

/-- Modelled from the spec (§4.2): `Handle::increment_counter` is a wrapping
u64 add.  On a kind mismatch the handle is unchanged (unreachable through the
recorder). -/
def Handle.increment_counter (h : Handle) (value : Nat) : Handle :=
  match h with
  | .counter v => .counter ((v + value) % 2 ^ 64)
  | h => h

/-- Modelled from the spec (§4.2): `Handle::update_gauge` is an absolute
overwrite, last writer wins. -/
def Handle.update_gauge (h : Handle) (value : F64) : Handle :=
  match h with
  | .gauge _ => .gauge value
  | h => h

/-- Modelled from the spec (§4.2): `Handle::record_histogram` accumulates the
observed sample. -/
def Handle.record_histogram (h : Handle) (value : Nat) : Handle :=
  match h with
  | .histogram s => .histogram (s ++ [value])
  | h => h

/-- Modelled from the spec (§3, §4.1): `metrics_util::Registry`, the mapping
from composite keys to handles.  Identifiers are indices into `entries`;
`get_handles` enumerates `entries` directly. -/
structure Registry where
  entries : List (CompositeKey × Handle)
deriving DecidableEq, Repr

/-- `Registry::new()`. -/
def Registry.empty : Registry := ⟨[]⟩

/-- Index of the first entry with the given composite key, if any. -/
def findKey : List (CompositeKey × Handle) → CompositeKey → Option Nat
  | [], _ => none
  | e :: es, k => if e.1 = k then some 0 else (findKey es k).map (· + 1)

/-- Modelled from the spec (§4.1): `Registry::get_or_create_identifier` — look
up the key; if absent, insert a fresh zero-valued handle and return the new
identifier; otherwise return the existing identifier. -/
def Registry.get_or_create_identifier (reg : Registry) (key : CompositeKey)
    (init : Handle) : Registry × Nat :=
  match findKey reg.entries key with
  | some i => (reg, i)
  | none => (⟨reg.entries ++ [(key, init)]⟩, reg.entries.length)

/-- Modelled from the spec (§4.1): `Registry::with_handle` — apply `f` to the
handle at `id`; an identifier the registry never issued is a no-op. -/
def Registry.with_handle (reg : Registry) (id : Nat) (f : Handle → Handle) :
    Registry :=
  if h : id < reg.entries.length then
    ⟨reg.entries.set id ((reg.entries.get ⟨id, h⟩).1, f (reg.entries.get ⟨id, h⟩).2)⟩
  else reg

/-- `StatsdRecorder::register_counter` (`src/lib.rs`), identical in
`PlainRecorder` (`src/recorder.rs`): intern `(Counter, name)` with a zero
counter handle (`Handle::counter()`). -/
def Registry.register_counter (reg : Registry) (name : String) : Registry × Nat :=
  reg.get_or_create_identifier ⟨.counter, name⟩ (.counter 0)

/-- `StatsdRecorder::register_gauge`: intern `(Gauge, name)` with a zero gauge
handle (`Handle::gauge()`). -/
def Registry.register_gauge (reg : Registry) (name : String) : Registry × Nat :=
  reg.get_or_create_identifier ⟨.gauge, name⟩ (.gauge ⟨0, 0⟩)

/-- `StatsdRecorder::register_histogram`: intern `(Histogram, name)` with an
empty histogram handle (`Handle::histogram()`). -/
def Registry.register_histogram (reg : Registry) (name : String) : Registry × Nat :=
  reg.get_or_create_identifier ⟨.histogram, name⟩ (.histogram [])

/-- `StatsdRecorder::increment_counter` (`src/lib.rs:102`). -/
def Registry.increment_counter (reg : Registry) (id : Nat) (value : Nat) : Registry :=
  reg.with_handle id (fun h => h.increment_counter value)

/-- `StatsdRecorder::update_gauge` (`src/lib.rs:107`). -/
def Registry.update_gauge (reg : Registry) (id : Nat) (value : F64) : Registry :=
  reg.with_handle id (fun h => h.update_gauge value)

/-- `StatsdRecorder::record_histogram` (`src/lib.rs:112`). -/
def Registry.record_histogram (reg : Registry) (id : Nat) (value : Nat) : Registry :=
  reg.with_handle id (fun h => h.record_histogram value)

/-- Read a counter through the registry, as the tests do via
`registry.with_handle(id, |h| h.read_counter())`; an unknown identifier yields
`none`. -/
def Registry.read_counter (reg : Registry) (id : Nat) : Option Nat :=
  (reg.entries.get? id).map (fun e => e.2.read_counter)

/-- Read a gauge through the registry; unknown identifier yields `none`. -/
def Registry.read_gauge (reg : Registry) (id : Nat) : Option F64 :=
  (reg.entries.get? id).map (fun e => e.2.read_gauge)

/-- Encoder body for one registry entry, translated from the loop body of
`StatsdRecorder::export` (`src/lib.rs:124-142`, duplicated in
`StatsdExporter::export`, `src/statsd.rs:38-56`): skip non-counter/gauge
kinds, then emit `name`, `:`, the value with its `|c`/`|g` suffix, and `\n`.
The inner histogram arm mirrors the source's second `_ => continue`, which is
unreachable because the first match already skipped histograms. -/
def exportEntry (buf : String) (desc : CompositeKey) (handle : Handle) : String :=
  match desc.kind with
  | .histogram => buf
  | _ =>
    let buf := buf ++ desc.name ++ ":"
    let buf :=
      match desc.kind with
      | .counter => buf ++ toString handle.read_counter ++ "|c"
      | .gauge => buf ++ handle.read_gauge.render ++ "|g"
      | .histogram => buf
    buf ++ "\n"

/-- `StatsdRecorder::export` (`src/lib.rs:119-144`): fold the encoder body over
the registry's handles into one buffer. -/
def exportStatsd (reg : Registry) : String :=
  reg.entries.foldl (fun buf e => exportEntry buf e.1 e.2) ""

/-- Statsd line of a single entry as the spec words it (§4.4): Counter:
`<name>:<value>|c\n` with the decimal counter reading; Gauge: `<name>:<value>|g\n`
with the shortest round-trippable decimal float reading; Histogram entries are
skipped entirely. -/
def specStatsdLine (e : CompositeKey × Handle) : String :=
  match e.1.kind with
  | .counter => e.1.name ++ ":" ++ toString e.2.read_counter ++ "|c\n"
  | .gauge => e.1.name ++ ":" ++ e.2.read_gauge.render ++ "|g\n"
  | .histogram => ""

/-- Concatenation of a list of encoded lines. -/
def joinLines (ls : List String) : String := ls.foldr (· ++ ·) ""

/-- Error from a failed socket send (`std::io::Error`), opaque here. -/
inductive IOError
  | mk (code : Nat)
deriving DecidableEq, Repr

/-- Outcome of the send loop. -/
inductive SendOutcome
  | ok
  | failed (e : IOError)
  /-- Modelling artifact: the socket oracle ran out of answers while data
  remained — the loop is still sending, it has not returned. -/
  | stillSending
deriving DecidableEq, Repr

/-- `StatsdRecorder::send` (`src/lib.rs:146-153`, duplicated in
`StatsdExporter::send`, `src/statsd.rs:60-67`):

```rust
let mut data = self.export();
while data.has_remaining() {
    let count = self.local_socket.send_to(data.bytes(), &self.peer_addr)?;
    data.advance(count);
}
Ok(())
```

The socket is modelled by an oracle: the list of results successive `send_to`
calls return (a byte count, or an error).  The function returns the trace of
calls made — each as the slice passed to `send_to` (the whole remaining
buffer) paired with the count the socket acknowledged — and the loop's
outcome. -/
def sendTrace : List Char → List (Except IOError Nat) →
    List (List Char × Nat) × SendOutcome
  | [], _ => ([], .ok)
  | _ :: _, [] => ([], .stillSending)
  | d :: ds, .ok c :: rest =>
    let r := sendTrace ((d :: ds).drop c) rest
    ((d :: ds, c) :: r.1, r.2)
  | d :: ds, .error e :: _ => ([(d :: ds, 0)], .failed e)

/-- Outcome of one iteration of the export loop. -/
inductive TickOutcome
  | continues
  /-- `unwrap()` on an `Err` terminates the loop (and its thread). -/
  | panicked (e : IOError)
  /-- Modelling artifact: the send loop had not yet returned. -/
  | stillSending
deriving DecidableEq, Repr

/-- One iteration of `StatsdRecorder::run` (`src/lib.rs:155-160`, duplicated in
`StatsdExporter::run`, `src/statsd.rs:69-74`): sleep, then
`self.send().unwrap()` — an `Ok` continues the loop, an `Err` panics. -/
def runStep (reg : Registry) (oracle : List (Except IOError Nat)) : TickOutcome :=
  match (sendTrace (exportStatsd reg).toList oracle).2 with
  | .ok => .continues
  | .failed e => .panicked e
  | .stillSending => .stillSending

/-- JSON values as `HtmlExporter::json_snapshot` produces them: a u64 counter
reading, an f64 gauge reading, or the histogram's sample vector. -/
inductive Json
  | num (v : Nat)
  | flt (v : F64)
  | arr (vs : List Nat)
deriving DecidableEq, Repr

/-- Value of one entry in the JSON snapshot (`src/html/mod.rs:36-40`). -/
def json_value (kind : MetricKind) (handle : Handle) : Json :=
  match kind with
  | .counter => .num handle.read_counter
  | .gauge => .flt handle.read_gauge
  | .histogram => .arr handle.read_histogram

/-- Key-value map insertion with replacement, as collecting an iterator into a
`serde_json::Map<String, Value>` does: a later pair with the same key
overwrites the earlier one.  (The source map also sorts keys; only the
key-to-value binding matters here.) -/
def mapInsert (m : List (String × Json)) (k : String) (v : Json) :
    List (String × Json) :=
  match m with
  | [] => [(k, v)]
  | e :: es => if e.1 = k then (k, v) :: es else e :: mapInsert es k v

/-- `HtmlExporter::json_snapshot` (`src/html/mod.rs:27-45`): map every registry
entry to `(name, value)` and collect into a map keyed by name alone. -/
def json_snapshot (reg : Registry) : List (String × Json) :=
  reg.entries.foldl (fun m e => mapInsert m e.1.name (json_value e.1.kind e.2)) []

/-- Number of bindings a snapshot map holds under the key `n`. -/
def countKey (m : List (String × Json)) (n : String) : Nat :=
  (m.filter (fun e => decide (e.1 = n))).length

/-! ### Helper lemmas -/

/-- A successful key lookup points at an entry carrying that key. -/
theorem findKey_some : ∀ {l : List (CompositeKey × Handle)} {k : CompositeKey} {i : Nat},
    findKey l k = some i → ∃ v, l.get? i = some (k, v) := by
  intro l
  induction l with
  | nil => intro k i h; simp [findKey] at h
  | cons e es ih =>
    intro k i h
    by_cases hk : e.1 = k
    · simp [findKey, hk] at h
      subst h
      refine ⟨e.2, ?_⟩
      obtain ⟨k1, v1⟩ := e
      simp at hk
      simp [hk]
    · simp [findKey, hk] at h
      obtain ⟨j, hj, rfl⟩ := h
      obtain ⟨v, hv⟩ := ih hj
      exact ⟨v, by simpa using hv⟩

/-- Appending an entry for an absent key makes it findable at the old length. -/
theorem findKey_append_self : ∀ {l : List (CompositeKey × Handle)} {k : CompositeKey},
    findKey l k = none → ∀ v : Handle, findKey (l ++ [(k, v)]) k = some l.length := by
  intro l
  induction l with
  | nil => intro k h v; simp [findKey]
  | cons e es ih =>
    intro k h v
    by_cases hk : e.1 = k
    · simp [findKey, hk] at h
    · simp only [findKey, hk, if_false, if_neg, Option.map_eq_none'] at h
      have hes := ih h v
      simp [findKey, hk, hes]

/-- Setting the appended last element of a list. -/
theorem set_concat_length {α : Type} (l : List α) (x y : α) :
    (l ++ [x]).set l.length y = l ++ [y] := by
  induction l with
  | nil => rfl
  | cons a t ih => simp [ih]

/-- Folding a wrapping add over a list of deltas yields the wrapped sum. -/
theorem foldl_wrap_add (M : Nat) (hM : 0 < M) :
    ∀ (ds : List Nat) (c : Nat), c < M →
      ds.foldl (fun a d => (a + d) % M) c = (c + ds.sum) % M := by
  intro ds
  induction ds with
  | nil => intro c hc; simp [Nat.mod_eq_of_lt hc]
  | cons d t ih =>
    intro c hc
    have h1 : (c + d) % M < M := Nat.mod_lt _ hM
    calc ((d :: t).foldl (fun a d => (a + d) % M) c)
        = t.foldl (fun a d => (a + d) % M) ((c + d) % M) := rfl
      _ = ((c + d) % M + t.sum) % M := ih _ h1
      _ = ((c + d) + t.sum) % M := Nat.mod_add_mod _ _ _
      _ = (c + (d :: t).sum) % M := by rw [List.sum_cons]; ring_nf

/-- Incrementing the freshly appended counter entry wraps its value in place. -/
theorem increment_concat (l : List (CompositeKey × Handle)) (k : CompositeKey) (c d : Nat) :
    Registry.increment_counter ⟨l ++ [(k, .counter c)]⟩ l.length d
      = ⟨l ++ [(k, .counter ((c + d) % 2 ^ 64))]⟩ := by
  have hlt : l.length < (l ++ [(k, Handle.counter c)]).length := by simp
  have hget : (l ++ [(k, Handle.counter c)]).get ⟨l.length, hlt⟩ = (k, .counter c) := by
    rw [List.get_append_right] <;> simp
  simp only [Registry.increment_counter, Registry.with_handle, hlt, dif_pos, hget]
  rw [set_concat_length]
  rfl

/-- Folding a sequence of increments over the freshly appended counter entry. -/
theorem foldl_increment (k : CompositeKey) :
    ∀ (ds : List Nat) (l : List (CompositeKey × Handle)) (c : Nat),
      ds.foldl (fun (r : Registry) d => r.increment_counter l.length d)
          ⟨l ++ [(k, .counter c)]⟩
        = ⟨l ++ [(k, .counter (ds.foldl (fun a d => (a + d) % 2 ^ 64) c))]⟩ := by
  intro ds
  induction ds with
  | nil => intro l c; rfl
  | cons d t ih =>
    intro l c
    calc ((d :: t).foldl (fun (r : Registry) d => r.increment_counter l.length d)
            ⟨l ++ [(k, .counter c)]⟩)
        = t.foldl (fun (r : Registry) d => r.increment_counter l.length d)
            (Registry.increment_counter ⟨l ++ [(k, .counter c)]⟩ l.length d) := rfl
      _ = t.foldl (fun (r : Registry) d => r.increment_counter l.length d)
            ⟨l ++ [(k, .counter ((c + d) % 2 ^ 64))]⟩ := by rw [increment_concat]
      _ = ⟨l ++ [(k, .counter ((d :: t).foldl (fun a d => (a + d) % 2 ^ 64) c))]⟩ := ih _ _

/-- One encoder step appends exactly the spec's line for the entry. -/
theorem exportEntry_line (buf : String) (e : CompositeKey × Handle) :
    exportEntry buf e.1 e.2 = buf ++ specStatsdLine e := by
  obtain ⟨⟨k, n⟩, h⟩ := e
  cases k with
  | counter =>
    show buf ++ n ++ ":" ++ toString h.read_counter ++ "|c" ++ "\n"
        = buf ++ (n ++ ":" ++ toString h.read_counter ++ "|c\n")
    simp only [String.append_assoc]
    rfl
  | gauge =>
    show buf ++ n ++ ":" ++ h.read_gauge.render ++ "|g" ++ "\n"
        = buf ++ (n ++ ":" ++ h.read_gauge.render ++ "|g\n")
    simp only [String.append_assoc]
    rfl
  | histogram =>
    show buf = buf ++ ""
    rw [String.append_empty]

/-- The encoder fold is the concatenation of the per-entry spec lines. -/
theorem exportStatsd_join_aux : ∀ (l : List (CompositeKey × Handle)) (buf : String),
    l.foldl (fun b e => exportEntry b e.1 e.2) buf
      = buf ++ joinLines (l.map specStatsdLine) := by
  intro l
  induction l with
  | nil => intro buf; rw [List.foldl_nil, List.map_nil]; exact (String.append_empty _).symm
  | cons e es ih =>
    intro buf
    rw [List.foldl_cons, ih, exportEntry_line, List.map_cons]
    rw [String.append_assoc]
    rfl

theorem exportStatsd_join (reg : Registry) :
    exportStatsd reg = joinLines (reg.entries.map specStatsdLine) := by
  rw [exportStatsd, exportStatsd_join_aux]
  exact String.empty_append _

/-- The zero-valued handle each registration function passes to
`get_or_create_identifier` (`Handle::counter()`, `Handle::gauge()`,
`Handle::histogram()`). -/
def initHandle : MetricKind → Handle
  | .counter => .counter 0
  | .gauge => .gauge ⟨0, 0⟩
  | .histogram => .histogram []

/-- The kind-indexed registration entry point of the `Recorder` trait impl. -/
def registerOf : MetricKind → Registry → String → Registry × Nat
  | .counter => Registry.register_counter
  | .gauge => Registry.register_gauge
  | .histogram => Registry.register_histogram

theorem registerOf_eq (k : MetricKind) (reg : Registry) (n : String) :
    registerOf k reg n = reg.get_or_create_identifier ⟨k, n⟩ (initHandle k) := by
  cases k <;> rfl

/-- The identifier returned by `get_or_create_identifier` indexes an entry
carrying the requested key. -/
theorem get_or_create_key (reg : Registry) (key : CompositeKey) (init : Handle) :
    ∃ v, (reg.get_or_create_identifier key init).1.entries.get?
        (reg.get_or_create_identifier key init).2 = some (key, v) := by
  unfold Registry.get_or_create_identifier
  cases hf : findKey reg.entries key with
  | some i =>
    obtain ⟨v, hv⟩ := findKey_some hf
    exact ⟨v, by simpa using hv⟩
  | none => exact ⟨init, by simp [List.get?_concat_length]⟩

/-- Interning the same key twice returns the same registry and identifier. -/
theorem get_or_create_idem (reg : Registry) (key : CompositeKey) (init init' : Handle) :
    (reg.get_or_create_identifier key init).1.get_or_create_identifier key init'
      = reg.get_or_create_identifier key init := by
  unfold Registry.get_or_create_identifier
  cases hf : findKey reg.entries key with
  | some i => simp [hf]
  | none => simp [hf, findKey_append_self hf init]

/-- Unfolding equation for `get_or_create_identifier` when the key is present. -/
theorem get_or_create_found {reg : Registry} {key : CompositeKey} {i : Nat}
    (hf : findKey reg.entries key = some i) (init : Handle) :
    reg.get_or_create_identifier key init = (reg, i) := by
  unfold Registry.get_or_create_identifier
  rw [hf]

/-- Unfolding equation for `get_or_create_identifier` when the key is absent. -/
theorem get_or_create_fresh {reg : Registry} {key : CompositeKey}
    (hf : findKey reg.entries key = none) (init : Handle) :
    reg.get_or_create_identifier key init
      = (⟨reg.entries ++ [(key, init)]⟩, reg.entries.length) := by
  unfold Registry.get_or_create_identifier
  rw [hf]

/-! ### Claim theorems -/

/-- C3: for every registry snapshot the encoder emits for each Counter entry
exactly the line `<name>:<value>|c\n` with the counter reading in decimal and
for each Gauge entry exactly `<name>:<value>|g\n` with the float reading in
shortest round-trippable decimal form; a counter at 0 encodes to `spam:0|c\n`,
a gauge at 42.0 to `spam:42|g\n`, a gauge at 3.3 to `spam:3.3|g\n`. -/
theorem C3_encoding :
    (∀ reg : Registry, exportStatsd reg = joinLines (reg.entries.map specStatsdLine)) ∧
    exportStatsd (Registry.empty.register_counter "spam").1 = "spam:0|c\n" ∧
    exportStatsd
        ((Registry.empty.register_gauge "spam").1.update_gauge
          (Registry.empty.register_gauge "spam").2 ⟨42, 0⟩) = "spam:42|g\n" ∧
    exportStatsd
        ((Registry.empty.register_gauge "spam").1.update_gauge
          (Registry.empty.register_gauge "spam").2 ⟨33, 1⟩) = "spam:3.3|g\n" :=
  ⟨exportStatsd_join, by decide, by decide, by decide⟩

/-- C4: registering `(n, k)` twice returns the same Identifier (registration is
idempotent), and registering the same name under two different kinds returns
different Identifiers. -/
theorem C4_identifier_stability (reg : Registry) (n : String) (k k1 k2 : MetricKind)
    (hk : k1 ≠ k2) :
    (registerOf k (registerOf k reg n).1 n).2 = (registerOf k reg n).2 ∧
    (registerOf k2 (registerOf k1 reg n).1 n).2 ≠ (registerOf k1 reg n).2 := by
  constructor
  · rw [registerOf_eq, registerOf_eq, get_or_create_idem]
  · rw [registerOf_eq, registerOf_eq]
    obtain ⟨v1, hv1⟩ := get_or_create_key reg ⟨k1, n⟩ (initHandle k1)
    intro heq
    cases hf : findKey (reg.get_or_create_identifier ⟨k1, n⟩ (initHandle k1)).1.entries
        ⟨k2, n⟩ with
    | some i =>
      rw [get_or_create_found hf] at heq
      simp only at heq
      obtain ⟨v2, hv2⟩ := findKey_some hf
      rw [heq, hv1] at hv2
      simp only [Option.some.injEq, Prod.mk.injEq, CompositeKey.mk.injEq] at hv2
      exact hk hv2.1.1
    | none =>
      rw [get_or_create_fresh hf] at heq
      simp only at heq
      obtain ⟨hlt, -⟩ := List.get?_eq_some.mp hv1
      rw [← heq] at hlt
      exact lt_irrefl _ hlt

theorem C4_identifier_stability_witness :
    (registerOf .counter (registerOf .counter Registry.empty "spam").1 "spam").2
        = (registerOf .counter Registry.empty "spam").2 ∧
    (registerOf .gauge (registerOf .counter Registry.empty "spam").1 "spam").2
        ≠ (registerOf .counter Registry.empty "spam").2 :=
  C4_identifier_stability Registry.empty "spam" .counter .counter .gauge (by decide)

/-- C5: on a freshly registered counter identifier, a sequence of sequential
`increment_counter` calls with deltas `ds` leaves `read_counter` equal to the
sum of the deltas, wrapping at 2^64. -/
theorem C5_counter_sum (reg : Registry) (n : String) (ds : List Nat)
    (h : findKey reg.entries ⟨.counter, n⟩ = none) :
    ((ds.foldl (fun (r : Registry) d => r.increment_counter (reg.register_counter n).2 d)
        (reg.register_counter n).1).read_counter (reg.register_counter n).2)
      = some (ds.sum % 2 ^ 64) := by
  have hreg : reg.register_counter n
      = (⟨reg.entries ++ [(⟨.counter, n⟩, .counter 0)]⟩, reg.entries.length) := by
    simp [Registry.register_counter, Registry.get_or_create_identifier, h]
  rw [hreg]
  show ((ds.foldl (fun (r : Registry) d => r.increment_counter reg.entries.length d)
      (Registry.mk (reg.entries ++ [(CompositeKey.mk .counter n,
        Handle.counter 0)]))).read_counter reg.entries.length)
    = some (ds.sum % 2 ^ 64)
  rw [foldl_increment]
  show ((Registry.mk (reg.entries ++ [(CompositeKey.mk .counter n,
      Handle.counter (ds.foldl (fun a d => (a + d) % 2 ^ 64) 0))])).read_counter
        reg.entries.length) = some (ds.sum % 2 ^ 64)
  rw [Registry.read_counter]
  show ((reg.entries ++ [(CompositeKey.mk .counter n,
      Handle.counter (ds.foldl (fun a d => (a + d) % 2 ^ 64) 0))]).get?
        reg.entries.length).map (fun e => e.2.read_counter) = some (ds.sum % 2 ^ 64)
  rw [List.get?_concat_length]
  rw [foldl_wrap_add (2 ^ 64) (by norm_num) ds 0 (by norm_num)]
  simp [Handle.read_counter]

theorem C5_counter_sum_witness :
    ((([1, 2, 3] : List Nat).foldl
        (fun (r : Registry) d => r.increment_counter (Registry.empty.register_counter "spam").2 d)
        (Registry.empty.register_counter "spam").1).read_counter
      (Registry.empty.register_counter "spam").2)
      = some (([1, 2, 3] : List Nat).sum % 2 ^ 64) :=
  C5_counter_sum Registry.empty "spam" [1, 2, 3] (by decide)

/-- Registry holding the single counter `spam`, a concrete export-loop input. -/
def regSpam : Registry := (Registry.empty.register_counter "spam").1

/-- C2 counterexample: on the registry holding counter `spam`, when the single
send call fails, one iteration of `run` panics — `send().unwrap()` terminates
the export loop instead of continuing to the next interval. -/
theorem C2_counterexample :
    runStep regSpam [Except.error (IOError.mk 0)] = TickOutcome.panicked (IOError.mk 0) ∧
    TickOutcome.panicked (IOError.mk 0) ≠ TickOutcome.continues := by
  exact ⟨by decide, by decide⟩

/-- C2 amended: if a send call returns an error during a tick, that tick's
transmission is abandoned and `run` panics via `unwrap`, surfacing the error in
the panic and terminating the export loop; the loop does not continue to the
next scheduled interval. -/
theorem C2_amended_loop_panics (reg : Registry) (oracle : List (Except IOError Nat))
    (e : IOError) (h : (sendTrace (exportStatsd reg).toList oracle).2 = .failed e) :
    runStep reg oracle = .panicked e := by
  unfold runStep
  rw [h]

theorem C2_amended_loop_panics_witness :
    runStep regSpam [Except.error (IOError.mk 7)] = TickOutcome.panicked (IOError.mk 7) :=
  C2_amended_loop_panics regSpam [Except.error (IOError.mk 7)] (IOError.mk 7) (by decide)

/-- C6: if the send loop returns success, the acknowledged prefixes of the
successive `send_to` calls concatenate to exactly the encoded payload — short
writes are continued from the unacknowledged remainder and no tail is ever
silently dropped. -/
theorem C6_short_writes (data : List Char) (oracle : List (Except IOError Nat))
    (h : (sendTrace data oracle).2 = .ok) :
    ((sendTrace data oracle).1.map (fun p => p.1.take p.2)).flatten = data := by
  induction oracle generalizing data with
  | nil =>
    cases data with
    | nil => rfl
    | cons d ds => simp [sendTrace] at h
  | cons o rest ih =>
    cases data with
    | nil => rfl
    | cons d ds =>
      cases o with
      | ok c =>
        simp only [sendTrace] at h ⊢
        simp only [List.map_cons, List.flatten_cons]
        rw [ih _ h]
        exact List.take_append_drop c (d :: ds)
      | error e => simp [sendTrace] at h

theorem C6_short_writes_witness :
    ((sendTrace ['a', 'b'] [Except.ok 1, Except.ok 1]).1.map
        (fun p => p.1.take p.2)).flatten = ['a', 'b'] :=
  C6_short_writes ['a', 'b'] [Except.ok 1, Except.ok 1] (by decide)

/-- All-histogram entry lists encode to the empty string. -/
theorem joinLines_all_empty : ∀ l : List (CompositeKey × Handle),
    (∀ e ∈ l, e.1.kind = .histogram) → joinLines (l.map specStatsdLine) = "" := by
  intro l
  induction l with
  | nil => intro _; rfl
  | cons e es ih =>
    intro hall
    have hk : e.1.kind = .histogram := hall e (by simp)
    have he : specStatsdLine e = "" := by simp [specStatsdLine, hk]
    show specStatsdLine e ++ joinLines (es.map specStatsdLine) = ""
    rw [he, String.empty_append]
    exact ih fun x hx => hall x (by simp [hx])

/-- Histogram entries contribute nothing to the encoded lines. -/
theorem joinLines_filter : ∀ l : List (CompositeKey × Handle),
    joinLines (l.map specStatsdLine)
      = joinLines ((l.filter (fun e => decide (e.1.kind ≠ .histogram))).map specStatsdLine) := by
  intro l
  induction l with
  | nil => rfl
  | cons e es ih =>
    by_cases hk : e.1.kind = .histogram
    · have he : specStatsdLine e = "" := by simp [specStatsdLine, hk]
      have hf : (e :: es).filter (fun e => decide (e.1.kind ≠ .histogram))
          = es.filter (fun e => decide (e.1.kind ≠ .histogram)) := by
        simp [List.filter_cons, hk]
      rw [hf]
      show specStatsdLine e ++ joinLines (es.map specStatsdLine) = _
      rw [he, String.empty_append, ih]
    · have hf : (e :: es).filter (fun e => decide (e.1.kind ≠ .histogram))
          = e :: es.filter (fun e => decide (e.1.kind ≠ .histogram)) := by
        simp [List.filter_cons, hk]
      rw [hf]
      show specStatsdLine e ++ joinLines (es.map specStatsdLine)
          = specStatsdLine e
            ++ joinLines ((es.filter (fun e => decide (e.1.kind ≠ .histogram))).map
                specStatsdLine)
      rw [ih]

/-- C7: histogram entries contribute no bytes to the encoded statsd output —
only counter and gauge entries are serialized — and a registry containing only
histograms encodes to the empty byte sequence. -/
theorem C7_histograms_skipped (reg : Registry) :
    exportStatsd reg
        = exportStatsd ⟨reg.entries.filter (fun e => decide (e.1.kind ≠ .histogram))⟩ ∧
    ((∀ e ∈ reg.entries, e.1.kind = .histogram) → exportStatsd reg = "") := by
  constructor
  · rw [exportStatsd_join, exportStatsd_join]
    exact joinLines_filter reg.entries
  · intro hall
    rw [exportStatsd_join]
    exact joinLines_all_empty reg.entries hall

theorem C7_histograms_skipped_witness :
    exportStatsd (Registry.empty.register_histogram "spam").1 = "" :=
  (C7_histograms_skipped (Registry.empty.register_histogram "spam").1).2 (by decide)

/-- C8: any identifier the registry never issued (all issued identifiers are
below `entries.length`) makes `increment_counter`, `update_gauge` and
`record_histogram` leave the registry unchanged, and reads return a not-found
`none`; the operations are total, never a crash. -/
theorem C8_unknown_identifier (reg : Registry) (id v s : Nat) (g : F64)
    (h : reg.entries.length ≤ id) :
    reg.increment_counter id v = reg ∧ reg.update_gauge id g = reg ∧
    reg.record_histogram id s = reg ∧ reg.read_counter id = none := by
  have hn : ¬ id < reg.entries.length := Nat.not_lt.mpr h
  refine ⟨?_, ?_, ?_, ?_⟩
  · simp [Registry.increment_counter, Registry.with_handle, hn]
  · simp [Registry.update_gauge, Registry.with_handle, hn]
  · simp [Registry.record_histogram, Registry.with_handle, hn]
  · simp [Registry.read_counter, List.get?_eq_none, h]

theorem C8_unknown_identifier_witness :
    regSpam.increment_counter 5 1 = regSpam ∧ regSpam.update_gauge 5 ⟨1, 0⟩ = regSpam ∧
    regSpam.record_histogram 5 1 = regSpam ∧ regSpam.read_counter 5 = none :=
  C8_unknown_identifier regSpam 5 1 1 ⟨1, 0⟩ (by decide)

/-- C10: a registry with no entries exports the empty byte sequence, and `send`
on it makes zero `send_to` calls and returns success. -/
theorem C10_empty_registry (reg : Registry) (oracle : List (Except IOError Nat))
    (h : reg.entries = []) :
    exportStatsd reg = "" ∧
    sendTrace (exportStatsd reg).toList oracle = ([], SendOutcome.ok) := by
  have he : exportStatsd reg = "" := by rw [exportStatsd, h]; rfl
  refine ⟨he, ?_⟩
  rw [he]
  show sendTrace [] oracle = ([], SendOutcome.ok)
  simp [sendTrace]

theorem C10_empty_registry_witness :
    exportStatsd Registry.empty = "" ∧
    sendTrace (exportStatsd Registry.empty).toList [Except.ok 3] = ([], SendOutcome.ok) :=
  C10_empty_registry Registry.empty [Except.ok 3] rfl

/-- Inserting under key `k` does not change the count of a different key. -/
theorem countKey_mapInsert_ne : ∀ (m : List (String × Json)) (k : String) (v : Json)
    (n : String), n ≠ k → countKey (mapInsert m k v) n = countKey m n := by
  intro m
  induction m with
  | nil => intro k v n hn; simp [mapInsert, countKey, Ne.symm hn]
  | cons e es ih =>
    intro k v n hn
    by_cases hek : e.1 = k
    · simp [mapInsert, hek, countKey, List.filter_cons, Ne.symm hn, hek ▸ (Ne.symm hn)]
    · simp only [mapInsert, hek, if_false, if_neg]
      by_cases hen : e.1 = n
      · simp [countKey, List.filter_cons, hen]
        exact ih k v n hn
      · simp [countKey, List.filter_cons, hen]
        exact ih k v n hn

/-- Inserting under key `k` into a map holding `k` at most once leaves exactly
one binding for `k`. -/
theorem countKey_mapInsert_self : ∀ (m : List (String × Json)) (k : String) (v : Json),
    countKey m k ≤ 1 → countKey (mapInsert m k v) k = 1 := by
  intro m
  induction m with
  | nil => intro k v _; simp [mapInsert, countKey]
  | cons e es ih =>
    intro k v hle
    by_cases hek : e.1 = k
    · have hes : countKey es k = 0 := by
        simp only [countKey, List.filter_cons, hek, decide_True, if_true,
          List.length_cons] at hle ⊢
        omega
      simp only [mapInsert, hek, if_pos, if_true]
      simp [countKey, List.filter_cons] at hes ⊢
      exact hes
    · simp only [mapInsert, hek, if_false, if_neg]
      have hle2 : countKey es k ≤ 1 := by
        simp [countKey, List.filter_cons, hek] at hle ⊢
        exact hle
      simp [countKey, List.filter_cons, hek]
      have := ih k v hle2
      simp [countKey] at this
      exact this

/-- Inserting never removes an already present key. -/
theorem one_le_countKey_mapInsert : ∀ (m : List (String × Json)) (k : String) (v : Json)
    (n : String), 1 ≤ countKey m n → 1 ≤ countKey (mapInsert m k v) n := by
  intro m k v n h
  by_cases hn : n = k
  · subst hn
    induction m with
    | nil => simp [mapInsert, countKey]
    | cons e es ih =>
      by_cases hek : e.1 = n
      · simp [mapInsert, hek, countKey, List.filter_cons]
      · simp only [mapInsert, hek, if_false, if_neg]
        simp [countKey, List.filter_cons, hek] at h ⊢
        exact ih h
  · rw [countKey_mapInsert_ne m k v n hn]
    exact h

/-- The snapshot key `k` appears after its insertion. -/
theorem one_le_countKey_mapInsert_self : ∀ (m : List (String × Json)) (k : String)
    (v : Json), 1 ≤ countKey (mapInsert m k v) k := by
  intro m
  induction m with
  | nil => intro k v; simp [mapInsert, countKey]
  | cons e es ih =>
    intro k v
    by_cases hek : e.1 = k
    · simp [mapInsert, hek, countKey, List.filter_cons]
    · simp only [mapInsert, hek, if_false, if_neg]
      simp [countKey, List.filter_cons, hek]
      have := ih k v
      simp [countKey] at this
      exact this

/-- The snapshot fold keeps every key bound at most once. -/
theorem snapshot_fold_le_one : ∀ (l : List (CompositeKey × Handle))
    (acc : List (String × Json)), (∀ x, countKey acc x ≤ 1) →
    ∀ x, countKey (l.foldl (fun m e => mapInsert m e.1.name (json_value e.1.kind e.2)) acc)
        x ≤ 1 := by
  intro l
  induction l with
  | nil => intro acc hacc x; exact hacc x
  | cons e es ih =>
    intro acc hacc x
    refine ih _ ?_ x
    intro y
    by_cases hy : y = e.1.name
    · rw [hy]
      exact le_of_eq
        (countKey_mapInsert_self acc e.1.name (json_value e.1.kind e.2) (hacc e.1.name))
    · rw [countKey_mapInsert_ne acc e.1.name (json_value e.1.kind e.2) y hy]
      exact hacc y

/-- The snapshot fold binds every name occurring among the entries (or already
bound in the accumulator) at least once. -/
theorem snapshot_fold_ge_one : ∀ (l : List (CompositeKey × Handle))
    (acc : List (String × Json)) (n : String),
    (1 ≤ countKey acc n ∨ ∃ e ∈ l, e.1.name = n) →
    1 ≤ countKey (l.foldl (fun m e => mapInsert m e.1.name (json_value e.1.kind e.2)) acc)
        n := by
  intro l
  induction l with
  | nil =>
    intro acc n h
    cases h with
    | inl h => exact h
    | inr h => obtain ⟨e, he, -⟩ := h; simp at he
  | cons e es ih =>
    intro acc n h
    rw [List.foldl_cons]
    cases h with
    | inl h =>
      exact ih _ n (Or.inl (one_le_countKey_mapInsert acc e.1.name _ n h))
    | inr h =>
      obtain ⟨x, hx, hn⟩ := h
      rcases List.mem_cons.mp hx with rfl | hx2
      · subst hn
        exact ih _ x.1.name (Or.inl (one_le_countKey_mapInsert_self acc x.1.name _))
      · exact ih _ n (Or.inr ⟨x, hx2, hn⟩)

/-- Registry in which the name `n` is registered both as a counter and as a
gauge, the way the recorder builds it. -/
def dupReg (n : String) : Registry :=
  ((Registry.empty.register_counter n).1.register_gauge n).1

/-- C9: whenever a name is registered under two different kinds, the JSON
snapshot keyed by name alone holds exactly one binding for that name (one
metric's value silently overwrites the other), while the statsd encoder emits
one separate line for each of the two entries. -/
theorem C9_json_name_collision (reg : Registry) (n : String) :
    ((∃ e ∈ reg.entries, e.1.name = n) → countKey (json_snapshot reg) n = 1) ∧
    json_snapshot (dupReg "spam") = [("spam", Json.flt ⟨0, 0⟩)] ∧
    exportStatsd (dupReg "spam") = "spam:0|c\nspam:0|g\n" := by
  refine ⟨?_, by decide, by decide⟩
  intro hex
  refine Nat.le_antisymm ?_ ?_
  · exact snapshot_fold_le_one reg.entries [] (fun x => by simp [countKey]) n
  · exact snapshot_fold_ge_one reg.entries [] n (Or.inr hex)

theorem C9_json_name_collision_witness :
    countKey (json_snapshot (dupReg "spam")) "spam" = 1 :=
  (C9_json_name_collision (dupReg "spam") "spam").1
    ⟨(⟨.counter, "spam"⟩, .counter 0), by decide, rfl⟩

/-- Registry whose encoded statsd payload is 610 bytes long: two counters whose
names are 300 characters each (`aaa…a` and `bbb…b`), each encoding to a
305-byte line. -/
def regC1 : Registry :=
  ((Registry.empty.register_counter (String.mk (List.replicate 300 'a'))).1.register_counter
    (String.mk (List.replicate 300 'b'))).1

set_option maxRecDepth 100000 in
set_option maxHeartbeats 2000000 in
/-- C1 evidence: the code does not chunk an oversized payload.  On a registry
whose encoded payload is 610 bytes (> 512), the send loop passes the entire
payload to a single `send_to` call — one datagram, no splitting at line
boundaries — and under a short write of 100 bytes the next `send_to` is handed
the remainder, which begins mid-line (the first acknowledged chunk ends inside
the first metric's name, not at a `\n`). -/
theorem C1_no_chunking :
    512 < (exportStatsd regC1).toList.length ∧
    (sendTrace (exportStatsd regC1).toList [Except.ok 610]).1.map Prod.fst
      = [(exportStatsd regC1).toList] ∧
    (sendTrace (exportStatsd regC1).toList [Except.ok 100, Except.ok 510]).1.map Prod.fst
      = [(exportStatsd regC1).toList, (exportStatsd regC1).toList.drop 100] ∧
    ((exportStatsd regC1).toList.take 100).getLast? = some 'a' := by
  refine ⟨by decide, by decide, by decide, by decide⟩
